import Mathlib

/-
Verification of the SSE dynamic-programming support structures of the
shapemapper/bowtie2 repository (files sam.h and the embedded
aligner_swsse.h header).  The development shallowly embeds, directly from
the C++ source:

 - the 16-bit per-cell mask words of SSEMatrix and their mutators
   (setReportedThrough, hMaskSet, eMaskSet, fMaskSet) and queries;
 - the scalar readout SSEMatrix::elt over the striped vector buffer;
 - the growable aligned vector container EList_m128i (resize, resizeExact,
   clear, expandCopy, expandCopyExact, lazyInit, lazyInitExact and the
   address-alignment arithmetic of alloc);
 - the SSEMetrics counter structure and its merge operation;
 - SamConfig::printReadName.

Machine integers are modelled as Nat with explicit reductions modulo
2 ^ 16 or 2 ^ 64 where C++ unsigned arithmetic truncates; int16_t lanes
are read back as Int.  Uninitialized storage coming out of operator new
is modelled by an explicit junk parameter supplied to the allocating
operations.
-/

/-! ## Mask words of SSEMatrix

`masks_` is an `EList<uint16_t>`; one word per scalar cell, addressed
row-major as `row * ncol_ + col`.  The four mutators below are the
word-level effect of the C++ statements, with uint16_t truncation made
explicit as a reduction modulo 2 ^ 16.  The C++ bitwise complement
`~(31 << 1)` applied to a 16-bit word is `65535 ^^^ (31 <<< 1)`, and
similarly for the other clears. -/

/-- Word effect of `masks_[i] |= (1 << 0)` in SSEMatrix::setReportedThrough. -/
def setRTWord (w : Nat) : Nat :=
  (w ||| (1 <<< 0)) % 2 ^ 16

/-- Word effect of SSEMatrix::hMaskSet:
`masks_[i] &= ~(31 << 1); masks_[i] |= (1 << 1 | mask << 2);`. -/
def hMaskSetWord (w m : Nat) : Nat :=
  ((w &&& (65535 ^^^ (31 <<< 1))) ||| ((1 <<< 1) ||| (m <<< 2))) % 2 ^ 16

/-- Word effect of SSEMatrix::eMaskSet:
`masks_[i] &= ~(7 << 7); masks_[i] |= (1 << 7 | mask << 8);`. -/
def eMaskSetWord (w m : Nat) : Nat :=
  ((w &&& (65535 ^^^ (7 <<< 7))) ||| ((1 <<< 7) ||| (m <<< 8))) % 2 ^ 16

/-- Word effect of SSEMatrix::fMaskSet:
`masks_[i] &= ~(7 << 10); masks_[i] |= (1 << 10 | mask << 11);`. -/
def fMaskSetWord (w m : Nat) : Nat :=
  ((w &&& (65535 ^^^ (7 <<< 10))) ||| ((1 <<< 10) ||| (m <<< 11))) % 2 ^ 16

/-! ## SSEMatrix

The fields needed by the claims: logical and vector dimensions, strides,
words per vector, the vector buffer (each `__m128i` modelled as its
128-bit little-endian value), and the mask-word grid. -/

structure SSEMatrix where
  nrow_ : Nat
  ncol_ : Nat
  nvecrow_ : Nat
  wperv_ : Nat
  colstride_ : Nat
  rowstride_ : Nat
  buf_ : Nat → Nat
  masks_ : Nat → Nat

/-- Quartet slot constant E of SSEMatrix. -/
def SSEMatrix.E : Nat := 0

/-- Quartet slot constant F of SSEMatrix. -/
def SSEMatrix.F : Nat := 1

/-- Quartet slot constant H of SSEMatrix. -/
def SSEMatrix.H : Nat := 2

/-- Unsigned 8-bit lane `j` of a 128-bit vector value, as read through the
C++ cast `((uint8_t*)v)[j]` on little-endian storage. -/
def u8lane (v j : Nat) : Nat :=
  (v >>> (8 * j)) &&& 255

/-- Signed 16-bit lane `j` of a 128-bit vector value, as read through the
C++ cast `((int16_t*)v)[j]` on little-endian storage, widened to int. -/
def i16lane (v j : Nat) : Int :=
  let w := (v >>> (16 * j)) &&& 65535
  if w < 32768 then (w : Int) else (w : Int) - 65536

/-- SSEMatrix::elt, translated from the source: strip the row into a
vector row `rowvec = row % nvecrow_` and a lane `rowelt = row / nvecrow_`,
locate the vector at `col * colstride_ + rowvec * rowstride_ + mat`, and
read lane `rowelt` as uint8_t when `wperv_ = 16`, as int16_t otherwise. -/
def SSEMatrix.elt (mx : SSEMatrix) (row col mat : Nat) : Int :=
  let rowelt := row / mx.nvecrow_
  let rowvec := row % mx.nvecrow_
  let eltvec := col * mx.colstride_ + rowvec * mx.rowstride_ + mat
  if mx.wperv_ = 16 then (u8lane (mx.buf_ eltvec) rowelt : Int)
  else i16lane (mx.buf_ eltvec) rowelt

/-- SSEData: only the fields claim C1 refers to (the matrix and the 8-bit
score bias). -/
structure SSEData where
  mat_ : SSEMatrix
  bias_ : Int

/-- SSEMatrix::reportedThrough: `(masks_[row * ncol_ + col] & (1 << 0)) != 0`. -/
def SSEMatrix.reportedThrough (mx : SSEMatrix) (row col : Nat) : Bool :=
  (mx.masks_ (row * mx.ncol_ + col) &&& (1 <<< 0)) != 0

/-- SSEMatrix::isHMaskSet: `(masks_[row * ncol_ + col] & (1 << 1)) != 0`. -/
def SSEMatrix.isHMaskSet (mx : SSEMatrix) (row col : Nat) : Bool :=
  (mx.masks_ (row * mx.ncol_ + col) &&& (1 <<< 1)) != 0

/-- SSEMatrix::isEMaskSet: `(masks_[row * ncol_ + col] & (1 << 7)) != 0`. -/
def SSEMatrix.isEMaskSet (mx : SSEMatrix) (row col : Nat) : Bool :=
  (mx.masks_ (row * mx.ncol_ + col) &&& (1 <<< 7)) != 0

/-- SSEMatrix::isFMaskSet: `(masks_[row * ncol_ + col] & (1 << 10)) != 0`. -/
def SSEMatrix.isFMaskSet (mx : SSEMatrix) (row col : Nat) : Bool :=
  (mx.masks_ (row * mx.ncol_ + col) &&& (1 <<< 10)) != 0

/-- SSEMatrix::setReportedThrough as a state transformer on the mask grid. -/
def SSEMatrix.setReportedThrough (mx : SSEMatrix) (row col : Nat) : SSEMatrix :=
  let i := row * mx.ncol_ + col
  { mx with masks_ := Function.update mx.masks_ i (setRTWord (mx.masks_ i)) }

/-- SSEMatrix::hMaskSet as a state transformer on the mask grid. -/
def SSEMatrix.hMaskSet (mx : SSEMatrix) (row col m : Nat) : SSEMatrix :=
  let i := row * mx.ncol_ + col
  { mx with masks_ := Function.update mx.masks_ i (hMaskSetWord (mx.masks_ i) m) }

/-- SSEMatrix::eMaskSet as a state transformer on the mask grid. -/
def SSEMatrix.eMaskSet (mx : SSEMatrix) (row col m : Nat) : SSEMatrix :=
  let i := row * mx.ncol_ + col
  { mx with masks_ := Function.update mx.masks_ i (eMaskSetWord (mx.masks_ i) m) }

/-- SSEMatrix::fMaskSet as a state transformer on the mask grid. -/
def SSEMatrix.fMaskSet (mx : SSEMatrix) (row col m : Nat) : SSEMatrix :=
  let i := row * mx.ncol_ + col
  { mx with masks_ := Function.update mx.masks_ i (fMaskSetWord (mx.masks_ i) m) }

/-- One call to a mask-grid mutator of SSEMatrix. -/
inductive MaskOp where
  | setRT : Nat → Nat → MaskOp
  | hSet : Nat → Nat → Nat → MaskOp
  | eSet : Nat → Nat → Nat → MaskOp
  | fSet : Nat → Nat → Nat → MaskOp

/-- Apply one mask-grid mutator call. -/
def SSEMatrix.applyMaskOp (mx : SSEMatrix) : MaskOp → SSEMatrix
  | MaskOp.setRT r c => mx.setReportedThrough r c
  | MaskOp.hSet r c m => mx.hMaskSet r c m
  | MaskOp.eSet r c m => mx.eMaskSet r c m
  | MaskOp.fSet r c m => mx.fMaskSet r c m

/-- Apply a finite sequence of mask-grid mutator calls, oldest first. -/
def SSEMatrix.applyMaskOps (mx : SSEMatrix) (ops : List MaskOp) : SSEMatrix :=
  ops.foldl SSEMatrix.applyMaskOp mx

/-! ## EList_m128i

The container state: `listNull_` models `list_ == NULL`, `buf_` the
contents of the heap block, `sz_` the capacity, `cur_` the occupancy.
`allocCount_` counts calls to `alloc` (each of which tallies into
gMemTally), so that "no allocation happens" is a provable statement.
Each stored `__m128i` is modelled as its 128-bit value; contents of
freshly allocated memory are indeterminate, which the model makes
explicit through a `junk` parameter. -/

structure EListM128i where
  listNull_ : Bool
  buf_ : Nat → Nat
  sz_ : Nat
  cur_ : Nat
  allocCount_ : Nat

/-- EList_m128i::lazyInit: `list_ = alloc(sz_)` (capacity unchanged). -/
def EListM128i.lazyInit (s : EListM128i) (junk : Nat → Nat) : EListM128i :=
  { s with listNull_ := false, buf_ := junk, allocCount_ := s.allocCount_ + 1 }

/-- EList_m128i::lazyInitExact: `sz_ = sz; list_ = alloc(sz)`. -/
def EListM128i.lazyInitExact (s : EListM128i) (junk : Nat → Nat) (n : Nat) : EListM128i :=
  { s with listNull_ := false, buf_ := junk, sz_ := n, allocCount_ := s.allocCount_ + 1 }

/-- The loop `while(newsz < thresh) newsz *= 2;` of EList_m128i::expandCopy,
started at `m`.  The `m = 0` guard only serves termination; expandCopy
always starts the loop at `sz_ * 2 + 1 ≥ 1`. -/
def doubleUntil (m n : Nat) : Nat :=
  if h : 0 < m ∧ m < n then doubleUntil (2 * m) n else m
termination_by n - m
decreasing_by omega

/-- EList_m128i::expandCopyExact: if `newsz` exceeds the capacity, allocate
a block of `newsz`, copy the `cur_` occupied slots if a block existed
(slots past `cur_`, and everything after a NULL list, are junk), free the
old block, and install the new capacity. -/
def EListM128i.expandCopyExact (s : EListM128i) (junk : Nat → Nat) (newsz : Nat) :
    EListM128i :=
  if newsz ≤ s.sz_ then s
  else
    { listNull_ := false
      buf_ := fun i => if s.listNull_ = false ∧ i < s.cur_ then s.buf_ i else junk i
      sz_ := newsz
      cur_ := s.cur_
      allocCount_ := s.allocCount_ + 1 }

/-- EList_m128i::expandCopy: grow to the first element of the doubling
sequence `sz_ * 2 + 1, (sz_ * 2 + 1) * 2, …` that reaches `thresh`. -/
def EListM128i.expandCopy (s : EListM128i) (junk : Nat → Nat) (thresh : Nat) :
    EListM128i :=
  if thresh ≤ s.sz_ then s
  else s.expandCopyExact junk (doubleUntil (s.sz_ * 2 + 1) thresh)

/-- EList_m128i::resize.  `junkInit` and `junkGrow` stand for the contents
of the up to two freshly allocated blocks. -/
def EListM128i.resize (s : EListM128i) (junkInit junkGrow : Nat → Nat) (n : Nat) :
    EListM128i :=
  let s1 := if 0 < n ∧ s.listNull_ = true then s.lazyInit junkInit else s
  if n ≤ s1.cur_ then { s1 with cur_ := n }
  else
    let s2 := if s1.sz_ < n then s1.expandCopy junkGrow n else s1
    { s2 with cur_ := n }

/-- EList_m128i::resizeExact. -/
def EListM128i.resizeExact (s : EListM128i) (junkInit junkGrow : Nat → Nat) (n : Nat) :
    EListM128i :=
  let s1 := if 0 < n ∧ s.listNull_ = true then s.lazyInitExact junkInit n else s
  if n ≤ s1.cur_ then { s1 with cur_ := n }
  else
    let s2 := if s1.sz_ < n then s1.expandCopyExact junkGrow n else s1
    { s2 with cur_ := n }

/-- EList_m128i::clear: `cur_ = 0`, heap not touched. -/
def EListM128i.clear (s : EListM128i) : EListM128i :=
  { s with cur_ := 0 }

/-- The reachable-state invariant of EList_m128i: a NULL list has zero
capacity and zero occupancy (established by the constructor and by free). -/
def EListM128i.nullInv (s : EListM128i) : Prop :=
  s.listNull_ = true → s.sz_ = 0 ∧ s.cur_ = 0

/-- The pointer-alignment adjustment of EList_m128i::alloc on the address
`a` returned by `new`: `if((a & 0xf) != 0) { a += 15; a &= ~0xf; }`.
On a 64-bit size_t the increment wraps modulo 2 ^ 64 and the bitmask
`~0xf` is the 64-bit value 2 ^ 64 - 16. -/
def allocAlign (a : Nat) : Nat :=
  if a &&& 15 ≠ 0 then ((a + 15) % 2 ^ 64) &&& (2 ^ 64 - 16) else a

/-! ## SSEMetrics

Sixteen uint64_t counters and a mutex.  The mutex is modelled as an
acquisition counter so that "merge takes the lock" is a provable
statement. -/

structure SSEMetrics where
  dp : Nat
  dpsat : Nat
  dpfail : Nat
  dpsucc : Nat
  col : Nat
  cell : Nat
  inner : Nat
  fixup : Nat
  gathcell : Nat
  gathsol : Nat
  bt : Nat
  btfail : Nat
  btsucc : Nat
  btcell : Nat
  corerej : Nat
  nrej : Nat

/-- A mutex, modelled by how many times it has been acquired. -/
structure MutexModel where
  acquisitions : Nat

/-- Modelled from the spec: the scope guard `ThreadSafe` constructed by
SSEMetrics::merge lives in threading.h, which is not part of src/; per the
spec's concurrency section the merged metrics structure is guarded by a
mutex that merge takes, and the guard here locks the given mutex exactly
when its boolean argument is true — mirroring the call site
`ThreadSafe ts(&lock, getLock)`. -/
def threadSafeGuard (mu : MutexModel) (getLock : Bool) : MutexModel :=
  if getLock then { acquisitions := mu.acquisitions + 1 } else mu

/-- Unsigned 64-bit addition: `a += b` on uint64_t counters. -/
def u64add (a b : Nat) : Nat :=
  (a + b) % 2 ^ 64

/-- SSEMetrics::merge.  The C++ signature is
`void merge(const SSEMetrics& o, bool getLock = false)`; it mutates the
sixteen counters of the receiver, leaves `o` untouched (const reference)
and constructs a `ThreadSafe` guard on `lock` gated by `getLock`.  The
model returns the updated receiver, the (unchanged) argument and the
mutex state. -/
def SSEMetrics.merge (s : SSEMetrics) (mu : MutexModel) (o : SSEMetrics)
    (getLock : Bool) : SSEMetrics × SSEMetrics × MutexModel :=
  let mu2 := threadSafeGuard mu getLock
  (⟨u64add s.dp o.dp, u64add s.dpsat o.dpsat, u64add s.dpfail o.dpfail,
    u64add s.dpsucc o.dpsucc, u64add s.col o.col, u64add s.cell o.cell,
    u64add s.inner o.inner, u64add s.fixup o.fixup,
    u64add s.gathcell o.gathcell, u64add s.gathsol o.gathsol,
    u64add s.bt o.bt, u64add s.btfail o.btfail, u64add s.btsucc o.btsucc,
    u64add s.btcell o.btcell, u64add s.corerej o.corerej,
    u64add s.nrej o.nrej⟩, o, mu2)

/-! ## SamConfig::printReadName

The output stream is modelled as the list of characters written. -/

/-- C `isspace` in the default locale: space, horizontal tab, line feed,
vertical tab, form feed, carriage return. -/
def csIsspace (c : Char) : Bool :=
  c = ' ' || c = '\t' || c = '\n' || c.toNat = 11 || c.toNat = 12 || c = '\r'

/-- The output loop of SamConfig::printReadName:
`for(i = 0; i < namelen; i++) { if(isspace(name[i])) return; o.write(name[i]); }`. -/
def writeNameLoop : List Char → Nat → List Char
  | _, 0 => []
  | [], _ + 1 => []
  | c :: cs, n + 1 => if csIsspace c then [] else c :: writeNameLoop cs n

/-- SamConfig::printReadName, translated from the source: drop a trailing
"/1" or "/2" from the effective length, truncate the effective length to
255 when `truncQname_` is set, then write characters until the length is
reached or a whitespace character is met. -/
def printReadName (truncQname : Bool) (name : List Char) : List Char :=
  let namelen := name.length
  let namelen2 :=
    if 2 ≤ namelen ∧ name.getD (namelen - 2) ' ' = '/' ∧
       (name.getD (namelen - 1) ' ' = '1' ∨ name.getD (namelen - 1) ' ' = '2')
    then namelen - 2 else namelen
  let namelen3 := if truncQname = true ∧ 255 < namelen2 then 255 else namelen2
  writeNameLoop name namelen3

/-! ## Spec-side definitions

These definitions follow the words of the spec and of the claims rather
than the source; the refinement theorems below compare them with the
source translations above. -/

/-- Byte `i` of a 128-bit little-endian vector value. -/
def byteAt (v i : Nat) : Nat :=
  v / 256 ^ i % 256

/-- The claim's reading of an unsigned 8-bit lane: byte `j`. -/
def specU8Lane (v j : Nat) : Nat :=
  byteAt v j

/-- The claim's reading of a signed 16-bit lane: bytes `2j` and `2j+1`,
little-endian, sign-extended. -/
def specI16Lane (v j : Nat) : Int :=
  let w := byteAt v (2 * j) + 256 * byteAt v (2 * j + 1)
  if w < 32768 then (w : Int) else (w : Int) - 65536

/-- Claim C1's scalar readout, following the claim's words: lane
`row / segLen` of the vector at `col * colstride + (row % segLen) *
rowstride + mat`, read unsigned 8-bit when `wperv = 16` and signed 16-bit
when `wperv = 8`, and in 8-bit mode unbiased by subtracting `bias` from
the stored lane.  `segLen` is the number of vector rows, i.e. `nvecrow_`. -/
def specEltC1 (mx : SSEMatrix) (bias : Int) (row col mat : Nat) : Int :=
  let segLen := mx.nvecrow_
  let eltvec := col * mx.colstride_ + (row % segLen) * mx.rowstride_ + mat
  if mx.wperv_ = 16 then (specU8Lane (mx.buf_ eltvec) (row / segLen) : Int) - bias
  else specI16Lane (mx.buf_ eltvec) (row / segLen)

/-- The amended claim C1's scalar readout: as `specEltC1` but returning
the stored 8-bit lane as is, with no bias adjustment. -/
def specEltNoBias (mx : SSEMatrix) (row col mat : Nat) : Int :=
  let segLen := mx.nvecrow_
  let eltvec := col * mx.colstride_ + (row % segLen) * mx.rowstride_ + mat
  if mx.wperv_ = 16 then (specU8Lane (mx.buf_ eltvec) (row / segLen) : Int)
  else specI16Lane (mx.buf_ eltvec) (row / segLen)

/-- Claim C10's effective name: the input with a trailing "/1" or "/2"
removed when its length is at least 2, then capped at 255 characters when
`truncQname` is enabled. -/
def effectiveNameC10 (truncQname : Bool) (name : List Char) : List Char :=
  let base :=
    if 2 ≤ name.length ∧
       (name.drop (name.length - 2) = ['/', '1'] ∨
        name.drop (name.length - 2) = ['/', '2'])
    then name.take (name.length - 2)
    else name
  if truncQname = true then base.take 255 else base

/-! ## Concrete states used by counterexamples and witnesses -/

/-- A concrete 8-bit-mode matrix: one vector row, every vector holding the
value 7 (so unsigned lane 0 of every vector is 7). -/
def exMatC1 : SSEMatrix :=
  { nrow_ := 1, ncol_ := 1, nvecrow_ := 1, wperv_ := 16,
    colstride_ := 4, rowstride_ := 4, buf_ := fun _ => 7, masks_ := fun _ => 0 }

/-- A concrete SSEData around `exMatC1` with bias 5. -/
def exDataC1 : SSEData :=
  { mat_ := exMatC1, bias_ := 5 }

/-- A concrete 16-bit-mode matrix for the C1 witness: `wperv_ = 8`, two
vector rows, vector `v` holding the value `(40000 + v) * 2 ^ 32`, so the
signed 16-bit lane 2 of vector `v` is `40000 + v - 65536 < 0`. -/
def exMatC1w : SSEMatrix :=
  { nrow_ := 16, ncol_ := 3, nvecrow_ := 2, wperv_ := 8,
    colstride_ := 8, rowstride_ := 4, buf_ := fun v => (40000 + v) * 2 ^ 32,
    masks_ := fun _ => 0 }

/-- A concrete single-cell mask grid whose word has (only) bit 6 set. -/
def exMatC2 : SSEMatrix :=
  { nrow_ := 1, ncol_ := 1, nvecrow_ := 1, wperv_ := 16,
    colstride_ := 4, rowstride_ := 4, buf_ := fun _ => 0, masks_ := fun _ => 64 }

/-- A concrete single-cell mask grid whose word has bits 0, 1, 7 and 10
set (all four "set" flags true). -/
def exMatC3 : SSEMatrix :=
  { nrow_ := 1, ncol_ := 1, nvecrow_ := 1, wperv_ := 16,
    colstride_ := 4, rowstride_ := 4, buf_ := fun _ => 0,
    masks_ := fun _ => 1 ||| 2 ||| 128 ||| 1024 }

/-- A concrete mutator sequence for the C3 witness. -/
def exOpsC3 : List MaskOp :=
  [MaskOp.hSet 0 0 3, MaskOp.eSet 0 0 1, MaskOp.fSet 0 0 2, MaskOp.setRT 0 0]

/-- A concrete initialized list: capacity 2, occupancy 2, slots i holding
`i + 10`, one allocation so far. -/
def exListC4 : EListM128i :=
  { listNull_ := false, buf_ := fun i => i + 10, sz_ := 2, cur_ := 2,
    allocCount_ := 1 }

/-- Junk contents for freshly allocated blocks in witnesses. -/
def exJunk : Nat → Nat :=
  fun _ => 999

/-- A concrete uninitialized list, as built by the constructor. -/
def exNullList : EListM128i :=
  { listNull_ := true, buf_ := fun _ => 0, sz_ := 0, cur_ := 0, allocCount_ := 0 }

/-- A concrete read name for the C10 witness: whitespace inside, spin-off
"/1" suffix. -/
def exNameC10 : List Char :=
  ['a', 'b', ' ', 'c', '/', '1']

/-- Concrete metrics values for the C5 witness and C8 counterexample. -/
def exMetA : SSEMetrics :=
  ⟨1, 2, 3, 4, 5, 6, 7, 8, 9, 10, 11, 12, 13, 14, 15, 2 ^ 64 - 1⟩

/-- Concrete metrics values, second operand. -/
def exMetB : SSEMetrics :=
  ⟨100, 200, 300, 400, 500, 600, 700, 800, 900, 1000, 1100, 1200, 1300,
   1400, 1500, 3⟩

/-! ## Helper lemmas on bits -/

/-- The source's bit query `(w & (1 << b)) != 0` is the b-th bit of `w`. -/
theorem bitQuery_eq_testBit (w b : Nat) :
    ((w &&& (1 <<< b)) != 0) = w.testBit b := by
  rw [Nat.one_shiftLeft]
  have hp : (2 : Nat) ^ b ≠ 0 :=
    Nat.pos_iff_ne_zero.mp (Nat.pos_pow_of_pos b (by norm_num))
  cases h : w.testBit b <;> simp [Nat.and_two_pow, h, hp]

/-- setRTWord preserves (indeed sets or keeps) bits 0, 1, 7 and 10. -/
theorem setRTWord_mono (w b : Nat) (hb : b = 0 ∨ b = 1 ∨ b = 7 ∨ b = 10)
    (h : w.testBit b = true) : (setRTWord w).testBit b = true := by
  rw [setRTWord, Nat.testBit_mod_two_pow, Nat.testBit_lor]
  rcases hb with rfl | rfl | rfl | rfl <;> simp [h]

/-- hMaskSetWord preserves bits 0, 1, 7 and 10 (bit 1 it always sets). -/
theorem hMaskSetWord_mono (w m b : Nat) (hb : b = 0 ∨ b = 1 ∨ b = 7 ∨ b = 10)
    (h : w.testBit b = true) : (hMaskSetWord w m).testBit b = true := by
  rw [hMaskSetWord, Nat.testBit_mod_two_pow, Nat.testBit_lor, Nat.testBit_land,
    Nat.testBit_lor]
  rcases hb with rfl | rfl | rfl | rfl <;>
    simp [h, (by decide : Nat.testBit 65473 0 = true),
      (by decide : Nat.testBit 65473 7 = true),
      (by decide : Nat.testBit 65473 10 = true),
      (by decide : Nat.testBit 2 1 = true)]

/-- eMaskSetWord preserves bits 0, 1, 7 and 10 (bit 7 it always sets). -/
theorem eMaskSetWord_mono (w m b : Nat) (hb : b = 0 ∨ b = 1 ∨ b = 7 ∨ b = 10)
    (h : w.testBit b = true) : (eMaskSetWord w m).testBit b = true := by
  rw [eMaskSetWord, Nat.testBit_mod_two_pow, Nat.testBit_lor, Nat.testBit_land,
    Nat.testBit_lor]
  rcases hb with rfl | rfl | rfl | rfl <;>
    simp [h, (by decide : Nat.testBit 64639 0 = true),
      (by decide : Nat.testBit 64639 1 = true),
      (by decide : Nat.testBit 64639 10 = true),
      (by decide : Nat.testBit 128 7 = true)]

/-- fMaskSetWord preserves bits 0, 1, 7 and 10 (bit 10 it always sets). -/
theorem fMaskSetWord_mono (w m b : Nat) (hb : b = 0 ∨ b = 1 ∨ b = 7 ∨ b = 10)
    (h : w.testBit b = true) : (fMaskSetWord w m).testBit b = true := by
  rw [fMaskSetWord, Nat.testBit_mod_two_pow, Nat.testBit_lor, Nat.testBit_land,
    Nat.testBit_lor]
  rcases hb with rfl | rfl | rfl | rfl <;>
    simp [h, (by decide : Nat.testBit 58367 0 = true),
      (by decide : Nat.testBit 58367 1 = true),
      (by decide : Nat.testBit 58367 7 = true),
      (by decide : Nat.testBit 1024 10 = true)]

/-- The four flag queries, rewritten through testBit. -/
theorem reportedThrough_eq_testBit (mx : SSEMatrix) (row col : Nat) :
    mx.reportedThrough row col = (mx.masks_ (row * mx.ncol_ + col)).testBit 0 := by
  rw [SSEMatrix.reportedThrough, bitQuery_eq_testBit]

/-- isHMaskSet through testBit. -/
theorem isHMaskSet_eq_testBit (mx : SSEMatrix) (row col : Nat) :
    mx.isHMaskSet row col = (mx.masks_ (row * mx.ncol_ + col)).testBit 1 := by
  rw [SSEMatrix.isHMaskSet, bitQuery_eq_testBit]

/-- isEMaskSet through testBit. -/
theorem isEMaskSet_eq_testBit (mx : SSEMatrix) (row col : Nat) :
    mx.isEMaskSet row col = (mx.masks_ (row * mx.ncol_ + col)).testBit 7 := by
  rw [SSEMatrix.isEMaskSet, bitQuery_eq_testBit]

/-- isFMaskSet through testBit. -/
theorem isFMaskSet_eq_testBit (mx : SSEMatrix) (row col : Nat) :
    mx.isFMaskSet row col = (mx.masks_ (row * mx.ncol_ + col)).testBit 10 := by
  rw [SSEMatrix.isFMaskSet, bitQuery_eq_testBit]

/-- Every mask mutator preserves bits 0, 1, 7 and 10 of every mask word. -/
theorem applyMaskOp_testBit_mono (mx : SSEMatrix) (op : MaskOp) (i b : Nat)
    (hb : b = 0 ∨ b = 1 ∨ b = 7 ∨ b = 10)
    (h : (mx.masks_ i).testBit b = true) :
    ((mx.applyMaskOp op).masks_ i).testBit b = true := by
  cases op with
  | setRT r c =>
      simp only [SSEMatrix.applyMaskOp, SSEMatrix.setReportedThrough,
        Function.update_apply]
      split
      · next heq => exact setRTWord_mono _ b hb (heq ▸ h)
      · exact h
  | hSet r c m =>
      simp only [SSEMatrix.applyMaskOp, SSEMatrix.hMaskSet, Function.update_apply]
      split
      · next heq => exact hMaskSetWord_mono _ m b hb (heq ▸ h)
      · exact h
  | eSet r c m =>
      simp only [SSEMatrix.applyMaskOp, SSEMatrix.eMaskSet, Function.update_apply]
      split
      · next heq => exact eMaskSetWord_mono _ m b hb (heq ▸ h)
      · exact h
  | fSet r c m =>
      simp only [SSEMatrix.applyMaskOp, SSEMatrix.fMaskSet, Function.update_apply]
      split
      · next heq => exact fMaskSetWord_mono _ m b hb (heq ▸ h)
      · exact h

/-- Mask mutators do not change the dimension fields. -/
theorem applyMaskOp_ncol (mx : SSEMatrix) (op : MaskOp) :
    (mx.applyMaskOp op).ncol_ = mx.ncol_ := by
  cases op <;> rfl

/-- Bit preservation over a whole sequence of mutator calls. -/
theorem applyMaskOps_testBit_mono (mx : SSEMatrix) (ops : List MaskOp) (i b : Nat)
    (hb : b = 0 ∨ b = 1 ∨ b = 7 ∨ b = 10)
    (h : (mx.masks_ i).testBit b = true) :
    ((mx.applyMaskOps ops).masks_ i).testBit b = true := by
  induction ops generalizing mx with
  | nil => exact h
  | cons op rest ih =>
      exact ih (mx.applyMaskOp op) (applyMaskOp_testBit_mono mx op i b hb h)

/-- Mask mutator sequences do not change the dimension fields. -/
theorem applyMaskOps_ncol (mx : SSEMatrix) (ops : List MaskOp) :
    (mx.applyMaskOps ops).ncol_ = mx.ncol_ := by
  induction ops generalizing mx with
  | nil => rfl
  | cons op rest ih => rw [SSEMatrix.applyMaskOps] at *; simpa [applyMaskOp_ncol] using ih (mx.applyMaskOp op)

/-- C3: for every cell and every finite sequence of setReportedThrough,
hMaskSet, eMaskSet and fMaskSet calls on any cells of the same SSEMatrix,
each of reportedThrough, isHMaskSet, isEMaskSet and isFMaskSet, once true
for a cell, remains true after the whole sequence: no operation clears
bit 0, 1, 7 or 10 of any mask word. -/
theorem C3_mask_flags_monotonic (mx : SSEMatrix) (ops : List MaskOp) (row col : Nat) :
    (mx.reportedThrough row col = true →
      (mx.applyMaskOps ops).reportedThrough row col = true) ∧
    (mx.isHMaskSet row col = true →
      (mx.applyMaskOps ops).isHMaskSet row col = true) ∧
    (mx.isEMaskSet row col = true →
      (mx.applyMaskOps ops).isEMaskSet row col = true) ∧
    (mx.isFMaskSet row col = true →
      (mx.applyMaskOps ops).isFMaskSet row col = true) := by
  refine ⟨?_, ?_, ?_, ?_⟩ <;> intro h
  · rw [reportedThrough_eq_testBit] at h ⊢
    rw [applyMaskOps_ncol]
    exact applyMaskOps_testBit_mono mx ops _ 0 (by tauto) h
  · rw [isHMaskSet_eq_testBit] at h ⊢
    rw [applyMaskOps_ncol]
    exact applyMaskOps_testBit_mono mx ops _ 1 (by tauto) h
  · rw [isEMaskSet_eq_testBit] at h ⊢
    rw [applyMaskOps_ncol]
    exact applyMaskOps_testBit_mono mx ops _ 7 (by tauto) h
  · rw [isFMaskSet_eq_testBit] at h ⊢
    rw [applyMaskOps_ncol]
    exact applyMaskOps_testBit_mono mx ops _ 10 (by tauto) h

/-- Witness for C3 at a concrete grid and mutator sequence. -/
theorem C3_mask_flags_monotonic_witness :
    (exMatC3.applyMaskOps exOpsC3).reportedThrough 0 0 = true ∧
    (exMatC3.applyMaskOps exOpsC3).isHMaskSet 0 0 = true ∧
    (exMatC3.applyMaskOps exOpsC3).isEMaskSet 0 0 = true ∧
    (exMatC3.applyMaskOps exOpsC3).isFMaskSet 0 0 = true := by
  have h := C3_mask_flags_monotonic exMatC3 exOpsC3 0 0
  exact ⟨h.1 (by decide), h.2.1 (by decide), h.2.2.1 (by decide),
    h.2.2.2 (by decide)⟩

/-- C2 (code bug): on a mask word whose stale bit 6 is set (value 64),
hMaskSet with mask 0 leaves the H-mask field bits 2 to 6 reading 16
instead of the written mask 0, because the code clears only bits 1 to 5;
at the same input the E and F mutators do write their fields exactly. -/
theorem C2_hMaskSet_stale_bit6 :
    ((exMatC2.hMaskSet 0 0 0).masks_ 0 >>> 2) &&& 31 = 16 ∧
    (exMatC2.hMaskSet 0 0 0).isHMaskSet 0 0 = true ∧
    ((exMatC2.eMaskSet 0 0 0).masks_ 0 >>> 8) &&& 3 = 0 ∧
    ((exMatC2.fMaskSet 0 0 0).masks_ 0 >>> 11) &&& 3 = 0 := by
  refine ⟨by decide, by decide, by decide, by decide⟩

/-! ## C1: the scalar striped readout -/

/-- The shift-and-mask unsigned 8-bit lane read agrees with the byte view. -/
theorem u8lane_eq_specU8Lane (v j : Nat) : u8lane v j = specU8Lane v j := by
  rw [u8lane, specU8Lane, byteAt, Nat.shiftRight_eq_div_pow,
    show (255 : Nat) = 2 ^ 8 - 1 from rfl, Nat.and_pow_two_sub_one_eq_mod,
    Nat.pow_mul]

/-- The shift-and-mask signed 16-bit lane read agrees with the
little-endian two-byte view. -/
theorem i16lane_eq_specI16Lane (v j : Nat) : i16lane v j = specI16Lane v j := by
  have key : (v >>> (16 * j)) &&& 65535 =
      byteAt v (2 * j) + 256 * byteAt v (2 * j + 1) := by
    rw [Nat.shiftRight_eq_div_pow, byteAt, byteAt,
      show (65535 : Nat) = 2 ^ 16 - 1 from rfl, Nat.and_pow_two_sub_one_eq_mod,
      show (2 : Nat) ^ (16 * j) = 256 ^ (2 * j) from by
        rw [show 16 * j = 8 * (2 * j) from by ring, Nat.pow_mul],
      show (256 : Nat) ^ (2 * j + 1) = 256 ^ (2 * j) * 256 from by ring,
      ← Nat.div_div_eq_div_mul]
    generalize v / 256 ^ (2 * j) = x
    omega
  rw [i16lane, specI16Lane, key]

/-- C1 (amended): for every SSEMatrix and every in-range row, col and
matrix selector, elt returns lane `row / segLen` of the vector at
`col * colstride + (row % segLen) * rowstride + mat`, read as an unsigned
8-bit lane when wperv = 16 and as a signed 16-bit lane when wperv = 8;
the stored lane is returned as is (no bias adjustment). -/
theorem C1_elt_striped_readout (mx : SSEMatrix) (row col mat : Nat)
    (_hrow : row < mx.nrow_) (_hcol : col < mx.ncol_) (_hmat : mat < 3)
    (_hw : mx.wperv_ = 16 ∨ mx.wperv_ = 8) :
    mx.elt row col mat = specEltNoBias mx row col mat := by
  rw [SSEMatrix.elt, specEltNoBias]
  by_cases h16 : mx.wperv_ = 16 <;>
    simp [h16, u8lane_eq_specU8Lane, i16lane_eq_specI16Lane]

/-- Witness for C1 at a concrete 16-bit-mode matrix and cell. -/
theorem C1_elt_striped_readout_witness :
    5 < exMatC1w.nrow_ ∧ 1 < exMatC1w.ncol_ ∧ (2 : Nat) < 3 ∧
    exMatC1w.elt 5 1 2 = specEltNoBias exMatC1w 5 1 2 ∧
    exMatC1w.elt 5 1 2 = -25522 :=
  ⟨by decide, by decide, by decide,
    C1_elt_striped_readout exMatC1w 5 1 2 (by decide) (by decide) (by decide)
      (Or.inr (by decide)),
    by decide⟩

/-- C1 counterexample: in 8-bit mode the code's elt returns the raw
stored lane and performs no bias subtraction, so at a matrix whose
stored lane is 7 under bias 5 the claim's value 2 differs from the
returned 7. -/
theorem C1_elt_bias_counterexample :
    exDataC1.bias_ = 5 ∧
    exDataC1.mat_.elt 0 0 SSEMatrix.H = 7 ∧
    specEltC1 exDataC1.mat_ exDataC1.bias_ 0 0 SSEMatrix.H = 2 ∧
    exDataC1.mat_.elt 0 0 SSEMatrix.H ≠
      specEltC1 exDataC1.mat_ exDataC1.bias_ 0 0 SSEMatrix.H :=
  ⟨by decide, by decide, by decide, by decide⟩

/-! ## C4, C6, C9: EList_m128i capacity and frame behaviour -/

/-- The doubling loop yields the first member of the geometric sequence
`m, 2m, 4m, …` that reaches `n`. -/
theorem doubleUntil_spec (m n : Nat) (hm : 0 < m) :
    ∃ k, doubleUntil m n = m * 2 ^ k ∧ n ≤ m * 2 ^ k ∧
      ∀ j, j < k → m * 2 ^ j < n := by
  by_cases h : m < n
  · obtain ⟨k, hk, hge, hlt⟩ := doubleUntil_spec (2 * m) n (by omega)
    refine ⟨k + 1, ?_, ?_, ?_⟩
    · rw [doubleUntil]
      simp only [hm, h, and_self, dite_true]
      rw [hk]; ring
    · calc n ≤ 2 * m * 2 ^ k := hge
        _ = m * 2 ^ (k + 1) := by ring
    · intro j hj
      cases j with
      | zero => simpa using h
      | succ i =>
          have := hlt i (by omega)
          calc m * 2 ^ (i + 1) = 2 * m * 2 ^ i := by ring
            _ < n := this
  · refine ⟨0, ?_, ?_, ?_⟩
    · rw [doubleUntil]
      simp [h]
    · simpa using Nat.le_of_not_lt h
    · intro j hj; omega
termination_by n - m
decreasing_by omega

/-- The doubling loop never comes out below its target. -/
theorem doubleUntil_ge (m n : Nat) (hm : 0 < m) : n ≤ doubleUntil m n := by
  obtain ⟨k, hk, hge, _⟩ := doubleUntil_spec m n hm
  omega

/-- resize in the regime: initialized list, growth beyond capacity. -/
theorem resize_eq_grow (s : EListM128i) (jI jG : Nat → Nat) (n : Nat)
    (hnull : s.listNull_ = false) (hn : s.cur_ < n) (hsz : s.sz_ < n) :
    s.resize jI jG n =
      { listNull_ := false
        buf_ := fun i => if i < s.cur_ then s.buf_ i else jG i
        sz_ := doubleUntil (s.sz_ * 2 + 1) n
        cur_ := n
        allocCount_ := s.allocCount_ + 1 } := by
  have hd : ¬(doubleUntil (s.sz_ * 2 + 1) n ≤ s.sz_) := by
    have := doubleUntil_ge (s.sz_ * 2 + 1) n (by omega)
    omega
  rw [EListM128i.resize]
  simp only [hnull, and_false, if_false, Bool.false_eq_true]
  rw [if_neg (by omega)]
  rw [if_pos hsz, EListM128i.expandCopy, if_neg (by omega),
    EListM128i.expandCopyExact, if_neg hd]
  simp [hnull]

/-- resize in the regime: uninitialized list, positive request: lazyInit
allocates at the old zero capacity, then the doubling growth runs from 1. -/
theorem resize_eq_grow_null (s : EListM128i) (jI jG : Nat → Nat) (n : Nat)
    (hnull : s.listNull_ = true) (hcur : s.cur_ = 0) (hsz : s.sz_ = 0)
    (hn : 0 < n) :
    s.resize jI jG n =
      { listNull_ := false
        buf_ := fun i => jG i
        sz_ := doubleUntil 1 n
        cur_ := n
        allocCount_ := s.allocCount_ + 2 } := by
  have hge := doubleUntil_ge (s.sz_ * 2 + 1) n (by omega)
  have c0 : ¬ n = 0 := by omega
  have c1 : ¬ n ≤ s.cur_ := by omega
  have c2 : s.sz_ < n := by omega
  have c3 : ¬ n ≤ s.sz_ := by omega
  have c4 : ¬ doubleUntil (s.sz_ * 2 + 1) n ≤ s.sz_ := by omega
  have c5 : ¬ doubleUntil 1 n = 0 := by
    have := doubleUntil_ge 1 n (by omega)
    omega
  rw [EListM128i.resize]
  simp [hnull, hn, EListM128i.lazyInit, EListM128i.expandCopy,
    EListM128i.expandCopyExact, c0, c1, c2, c3, c4, c5, hsz, hcur]

/-- resize in the regime: initialized list, growth within capacity: only
the occupancy moves. -/
theorem resize_eq_fit (s : EListM128i) (jI jG : Nat → Nat) (n : Nat)
    (hnull : s.listNull_ = false) (hn : s.cur_ < n) (hsz : n ≤ s.sz_) :
    s.resize jI jG n = { s with cur_ := n } := by
  rw [EListM128i.resize]
  simp only [hnull, and_false, if_false, Bool.false_eq_true]
  rw [if_neg (by omega), if_neg (by omega), hnull]

/-- resize in the regime: shrinking or equal request: only the occupancy
moves. -/
theorem resize_eq_shrink (s : EListM128i) (jI jG : Nat → Nat) (n : Nat)
    (hinv : s.nullInv) (hn : n ≤ s.cur_) :
    s.resize jI jG n = { s with cur_ := n } := by
  rw [EListM128i.resize]
  cases hnull : s.listNull_ with
  | true =>
      obtain ⟨_, hcur⟩ := hinv hnull
      have hn0 : n = 0 := by omega
      subst hn0
      rw [if_pos (Nat.zero_le _)]
      rw [if_neg (by simp), hnull]
  | false =>
      simp only [hnull, and_false, if_false, Bool.false_eq_true]
      rw [if_pos hn]

/-- resizeExact in the regime: initialized list, growth beyond capacity:
the new capacity is exactly the request. -/
theorem resizeExact_eq_grow (s : EListM128i) (jI jG : Nat → Nat) (n : Nat)
    (hnull : s.listNull_ = false) (hn : s.cur_ < n) (hsz : s.sz_ < n) :
    s.resizeExact jI jG n =
      { listNull_ := false
        buf_ := fun i => if i < s.cur_ then s.buf_ i else jG i
        sz_ := n
        cur_ := n
        allocCount_ := s.allocCount_ + 1 } := by
  rw [EListM128i.resizeExact]
  simp only [hnull, and_false, if_false, Bool.false_eq_true]
  rw [if_neg (by omega)]
  rw [if_pos hsz, EListM128i.expandCopyExact, if_neg (by omega)]
  simp [hnull]

/-- resizeExact in the regime: uninitialized list, positive request:
lazyInitExact installs exactly the requested capacity in one allocation. -/
theorem resizeExact_eq_grow_null (s : EListM128i) (jI jG : Nat → Nat) (n : Nat)
    (hnull : s.listNull_ = true) (hcur : s.cur_ = 0) (hn : 0 < n) :
    s.resizeExact jI jG n =
      { listNull_ := false
        buf_ := fun i => jI i
        sz_ := n
        cur_ := n
        allocCount_ := s.allocCount_ + 1 } := by
  have c0 : ¬ n = 0 := by omega
  have c1 : ¬ n ≤ s.cur_ := by omega
  rw [EListM128i.resizeExact]
  simp [hnull, hn, EListM128i.lazyInitExact, EListM128i.expandCopyExact,
    c0, c1, hcur]

/-- resizeExact in the regime: shrinking or equal request. -/
theorem resizeExact_eq_shrink (s : EListM128i) (jI jG : Nat → Nat) (n : Nat)
    (hinv : s.nullInv) (hn : n ≤ s.cur_) :
    s.resizeExact jI jG n = { s with cur_ := n } := by
  rw [EListM128i.resizeExact]
  cases hnull : s.listNull_ with
  | true =>
      obtain ⟨_, hcur⟩ := hinv hnull
      have hn0 : n = 0 := by omega
      subst hn0
      rw [if_pos (Nat.zero_le _)]
      rw [if_neg (by simp), hnull]
  | false =>
      simp only [hnull, and_false, if_false, Bool.false_eq_true]
      rw [if_pos hn]

/-- resizeExact in the regime: initialized list, growth within capacity. -/
theorem resizeExact_eq_fit (s : EListM128i) (jI jG : Nat → Nat) (n : Nat)
    (hnull : s.listNull_ = false) (hn : s.cur_ < n) (hsz : n ≤ s.sz_) :
    s.resizeExact jI jG n = { s with cur_ := n } := by
  rw [EListM128i.resizeExact]
  simp only [hnull, and_false, if_false, Bool.false_eq_true]
  rw [if_neg (by omega), if_neg (by omega), hnull]

/-- C4: a growing resize sets the size to the request, preserves the
occupied prefix element-wise, and when the request exceeds the capacity
the new capacity is the first member of the doubling sequence
2*cap+1, 2*(2*cap+1), 4*(2*cap+1), … to reach the request, while
resizeExact installs exactly the requested capacity. -/
theorem C4_resize_growth (s : EListM128i) (jI jG jI2 jG2 : Nat → Nat) (n : Nat)
    (hinv : s.nullInv) (hn : s.cur_ < n) :
    (s.resize jI jG n).cur_ = n ∧
    (∀ i, i < s.cur_ → (s.resize jI jG n).buf_ i = s.buf_ i) ∧
    (s.sz_ < n →
      ∃ k, (s.resize jI jG n).sz_ = (2 * s.sz_ + 1) * 2 ^ k ∧
        n ≤ (2 * s.sz_ + 1) * 2 ^ k ∧
        ∀ j, j < k → (2 * s.sz_ + 1) * 2 ^ j < n) ∧
    (s.sz_ < n → (s.resizeExact jI2 jG2 n).sz_ = n) ∧
    (s.resizeExact jI2 jG2 n).cur_ = n := by
  cases hnull : s.listNull_ with
  | true =>
      obtain ⟨hsz, hcur⟩ := hinv hnull
      rw [resize_eq_grow_null s jI jG n hnull hcur hsz (by omega),
        resizeExact_eq_grow_null s jI2 jG2 n hnull hcur (by omega)]
      refine ⟨rfl, ?_, ?_, fun _ => rfl, rfl⟩
      · intro i hi; omega
      · intro _
        obtain ⟨k, hk, hge, hlt⟩ := doubleUntil_spec 1 n (by omega)
        refine ⟨k, ?_, ?_, ?_⟩
        · show doubleUntil 1 n = (2 * s.sz_ + 1) * 2 ^ k
          rw [hk, hsz]
        · rw [hsz]; simpa using hge
        · intro j hj; rw [hsz]; simpa using hlt j hj
  | false =>
      by_cases hsz : s.sz_ < n
      · rw [resize_eq_grow s jI jG n hnull hn hsz,
          resizeExact_eq_grow s jI2 jG2 n hnull hn hsz]
        refine ⟨rfl, ?_, ?_, fun _ => rfl, rfl⟩
        · intro i hi; simp [hi]
        · intro _
          obtain ⟨k, hk, hge, hlt⟩ := doubleUntil_spec (s.sz_ * 2 + 1) n (by omega)
          refine ⟨k, ?_, ?_, ?_⟩
          · show doubleUntil (s.sz_ * 2 + 1) n = (2 * s.sz_ + 1) * 2 ^ k
            rw [hk]; ring
          · rw [show (2 * s.sz_ + 1) = (s.sz_ * 2 + 1) from by ring]; exact hge
          · intro j hj
            rw [show (2 * s.sz_ + 1) = (s.sz_ * 2 + 1) from by ring]
            exact hlt j hj
      · have hfit : n ≤ s.sz_ := by omega
        rw [resize_eq_fit s jI jG n hnull hn hfit,
          resizeExact_eq_fit s jI2 jG2 n hnull hn hfit]
        exact ⟨rfl, fun i hi => rfl, fun h => absurd h hsz, fun h => absurd h hsz,
          rfl⟩

/-- Witness for C4 at a concrete list of capacity 2 and occupancy 2 grown
to 5. -/
theorem C4_resize_growth_witness :
    exListC4.cur_ < 5 ∧
    ((exListC4.resize exJunk exJunk 5).cur_ = 5 ∧
      (∀ i, i < exListC4.cur_ →
        (exListC4.resize exJunk exJunk 5).buf_ i = exListC4.buf_ i) ∧
      (exListC4.sz_ < 5 →
        ∃ k, (exListC4.resize exJunk exJunk 5).sz_ =
            (2 * exListC4.sz_ + 1) * 2 ^ k ∧
          5 ≤ (2 * exListC4.sz_ + 1) * 2 ^ k ∧
          ∀ j, j < k → (2 * exListC4.sz_ + 1) * 2 ^ j < 5) ∧
      (exListC4.sz_ < 5 → (exListC4.resizeExact exJunk exJunk 5).sz_ = 5) ∧
      (exListC4.resizeExact exJunk exJunk 5).cur_ = 5) :=
  ⟨by decide,
    C4_resize_growth exListC4 exJunk exJunk exJunk exJunk 5
      (fun h => absurd h (by decide)) (by decide)⟩

/-- C6: clear zeroes the size, retains the capacity, the heap block and
its contents, performs no deallocation, and a later resize to any request
within the old capacity allocates nothing and re-exposes the previously
stored elements unchanged. -/
theorem C6_clear_retains_storage (s : EListM128i) (jI jG : Nat → Nat) (n : Nat)
    (hnull : s.listNull_ = false) (hn : n ≤ s.sz_) :
    s.clear.cur_ = 0 ∧
    s.clear.sz_ = s.sz_ ∧
    s.clear.buf_ = s.buf_ ∧
    s.clear.listNull_ = false ∧
    s.clear.allocCount_ = s.allocCount_ ∧
    (s.clear.resize jI jG n).allocCount_ = s.allocCount_ ∧
    (s.clear.resize jI jG n).sz_ = s.sz_ ∧
    (s.clear.resize jI jG n).cur_ = n ∧
    ∀ i, i < n → (s.clear.resize jI jG n).buf_ i = s.buf_ i := by
  have hres : s.clear.resize jI jG n = { s with cur_ := n } := by
    rcases Nat.eq_zero_or_pos n with h0 | h0
    · subst h0
      rw [resize_eq_shrink s.clear jI jG 0
        (fun h => absurd h (by simp [EListM128i.clear, hnull])) (Nat.zero_le _)]
      simp [EListM128i.clear]
    · rw [resize_eq_fit s.clear jI jG n hnull h0 hn]
      simp [EListM128i.clear]
  exact ⟨rfl, rfl, rfl, hnull, rfl, by rw [hres], by rw [hres], by rw [hres],
    fun i hi => by rw [hres]⟩

/-- Witness for C6 at a concrete list cleared and resized back to 2. -/
theorem C6_clear_retains_storage_witness :
    exListC4.listNull_ = false ∧ 2 ≤ exListC4.sz_ ∧
    (exListC4.clear.resize exJunk exJunk 2).allocCount_ =
      exListC4.allocCount_ ∧
    (exListC4.clear.resize exJunk exJunk 2).cur_ = 2 ∧
    ∀ i, i < 2 →
      (exListC4.clear.resize exJunk exJunk 2).buf_ i = exListC4.buf_ i := by
  have h := C6_clear_retains_storage exListC4 exJunk exJunk 2 (by decide)
    (by decide)
  exact ⟨by decide, by decide, h.2.2.2.2.2.1, h.2.2.2.2.2.2.2.1,
    h.2.2.2.2.2.2.2.2⟩

/-- C9: a shrinking or equal-size resize or resizeExact only moves the
occupancy: capacity, heap block, stored elements and allocation count are
untouched, including the request 0 on an uninitialized list. -/
theorem C9_resize_shrink_frame (s : EListM128i) (jI jG jI2 jG2 : Nat → Nat)
    (n : Nat) (hinv : s.nullInv) (hn : n ≤ s.cur_) :
    s.resize jI jG n = { s with cur_ := n } ∧
    s.resizeExact jI2 jG2 n = { s with cur_ := n } ∧
    (s.resize jI jG n).cur_ = n ∧
    (s.resize jI jG n).sz_ = s.sz_ ∧
    (s.resize jI jG n).buf_ = s.buf_ ∧
    (s.resize jI jG n).allocCount_ = s.allocCount_ := by
  have h1 := resize_eq_shrink s jI jG n hinv hn
  have h2 := resizeExact_eq_shrink s jI2 jG2 n hinv hn
  exact ⟨h1, h2, by rw [h1], by rw [h1], by rw [h1], by rw [h1]⟩

/-- Witness for C9: shrink a concrete occupied list to 1, and shrink an
uninitialized empty list to 0. -/
theorem C9_resize_shrink_frame_witness :
    (1 ≤ exListC4.cur_ ∧
      exListC4.resize exJunk exJunk 1 = { exListC4 with cur_ := 1 } ∧
      exListC4.resizeExact exJunk exJunk 1 = { exListC4 with cur_ := 1 }) ∧
    (exNullList.resize exJunk exJunk 0 = { exNullList with cur_ := 0 } ∧
      exNullList.resizeExact exJunk exJunk 0 = { exNullList with cur_ := 0 }) := by
  have h1 := C9_resize_shrink_frame exListC4 exJunk exJunk exJunk exJunk 1
    (fun h => absurd h (by decide)) (by decide)
  have h2 := C9_resize_shrink_frame exNullList exJunk exJunk exJunk exJunk 0
    (fun _ => ⟨rfl, rfl⟩) (Nat.zero_le _)
  exact ⟨⟨by decide, h1.1, h1.2.1⟩, h2.1, h2.2.1⟩

/-! ## C5, C8: SSEMetrics::merge -/

/-- C5: merge adds every one of the sixteen counters of the argument into
the receiver with unsigned 64-bit addition, and the argument (passed by
const reference) is returned unchanged. -/
theorem C5_metrics_merge_adds (s o : SSEMetrics) (mu : MutexModel) (g : Bool) :
    (s.merge mu o g).1.dp = (s.dp + o.dp) % 2 ^ 64 ∧
    (s.merge mu o g).1.dpsat = (s.dpsat + o.dpsat) % 2 ^ 64 ∧
    (s.merge mu o g).1.dpfail = (s.dpfail + o.dpfail) % 2 ^ 64 ∧
    (s.merge mu o g).1.dpsucc = (s.dpsucc + o.dpsucc) % 2 ^ 64 ∧
    (s.merge mu o g).1.col = (s.col + o.col) % 2 ^ 64 ∧
    (s.merge mu o g).1.cell = (s.cell + o.cell) % 2 ^ 64 ∧
    (s.merge mu o g).1.inner = (s.inner + o.inner) % 2 ^ 64 ∧
    (s.merge mu o g).1.fixup = (s.fixup + o.fixup) % 2 ^ 64 ∧
    (s.merge mu o g).1.gathcell = (s.gathcell + o.gathcell) % 2 ^ 64 ∧
    (s.merge mu o g).1.gathsol = (s.gathsol + o.gathsol) % 2 ^ 64 ∧
    (s.merge mu o g).1.bt = (s.bt + o.bt) % 2 ^ 64 ∧
    (s.merge mu o g).1.btfail = (s.btfail + o.btfail) % 2 ^ 64 ∧
    (s.merge mu o g).1.btsucc = (s.btsucc + o.btsucc) % 2 ^ 64 ∧
    (s.merge mu o g).1.btcell = (s.btcell + o.btcell) % 2 ^ 64 ∧
    (s.merge mu o g).1.corerej = (s.corerej + o.corerej) % 2 ^ 64 ∧
    (s.merge mu o g).1.nrej = (s.nrej + o.nrej) % 2 ^ 64 ∧
    (s.merge mu o g).2.1 = o :=
  ⟨rfl, rfl, rfl, rfl, rfl, rfl, rfl, rfl, rfl, rfl, rfl, rfl, rfl, rfl, rfl,
    rfl, rfl⟩

/-- C8 (amended): merge acquires the metrics mutex exactly when its
getLock argument is true; the C++ default for getLock is false, so a
plain merge call does not take the lock. -/
theorem C8_merge_lock_gated (s o : SSEMetrics) (mu : MutexModel) (g : Bool) :
    ((s.merge mu o g).2.2).acquisitions =
      (if g = true then mu.acquisitions + 1 else mu.acquisitions) := by
  cases g <;> rfl

/-- C8 counterexample: a call of merge with the default getLock = false
accumulates the counters without a single mutex acquisition. -/
theorem C8_merge_default_no_lock :
    ((exMetA.merge ⟨0⟩ exMetB false).2.2).acquisitions = 0 ∧
    (exMetA.merge ⟨0⟩ exMetB false).1.dp = 101 :=
  ⟨rfl, by decide⟩

/-! ## C7: alloc's 16-byte alignment arithmetic -/

/-- Conjunction with the 64-bit low-nibble mask rounds down to a multiple
of 16. -/
theorem land_mask_64 (x : Nat) (hx : x < 2 ^ 64) :
    x &&& (2 ^ 64 - 16) = x / 16 * 16 := by
  have hmask : (2 ^ 64 - 16 : Nat) = (2 ^ 60 - 1) <<< 4 := by
    rw [Nat.shiftLeft_eq]
    norm_num
  have hrhs : x / 16 * 16 = (x >>> 4) <<< 4 := by
    rw [Nat.shiftRight_eq_div_pow, Nat.shiftLeft_eq]
  rw [hmask, hrhs]
  apply Nat.eq_of_testBit_eq
  intro i
  rw [Nat.testBit_land, Nat.testBit_shiftLeft, Nat.testBit_shiftLeft]
  rcases Nat.lt_or_ge i 4 with h4 | h4
  · simp [Nat.not_le.mpr h4]
  · rw [Nat.testBit_shiftRight, Nat.testBit_two_pow_sub_one,
      show 4 + (i - 4) = i from by omega]
    rcases Nat.lt_or_ge i 64 with h64 | h64
    · simp [h4, show i - 4 < 60 from by omega, Bool.and_comm]
    · have hxf : x.testBit i = false :=
        Nat.testBit_eq_false_of_lt
          (lt_of_lt_of_le hx (Nat.pow_le_pow_right (by norm_num) h64))
      simp [hxf, show ¬(i - 4 < 60) from by omega]

/-- The low nibble of an address is its residue modulo 16. -/
theorem land_fifteen_eq_mod (a : Nat) : a &&& 15 = a % 16 := by
  have h := Nat.and_pow_two_sub_one_eq_mod a 4
  norm_num at h
  exact h

/-- C7: the alignment adjustment of EList_m128i::alloc yields a 16-byte
aligned address that is at least the allocated base and exceeds it by at
most 15, so the two extra vectors of the `sz + 2` allocation leave room
for `sz` aligned vectors. -/
theorem C7_alloc_alignment (a sz : Nat) (h : a + 15 < 2 ^ 64) :
    allocAlign a % 16 = 0 ∧ a ≤ allocAlign a ∧ allocAlign a ≤ a + 15 ∧
    allocAlign a + 16 * sz ≤ a + 16 * (sz + 2) := by
  rw [allocAlign]
  by_cases hm : a &&& 15 ≠ 0
  · rw [if_pos hm, Nat.mod_eq_of_lt h, land_mask_64 (a + 15) h]
    omega
  · rw [if_neg hm]
    rw [land_fifteen_eq_mod] at hm
    omega

/-- Witness for C7 at the unaligned base address 7 with 3 vectors. -/
theorem C7_alloc_alignment_witness :
    7 + 15 < 2 ^ 64 ∧
    (allocAlign 7 % 16 = 0 ∧ 7 ≤ allocAlign 7 ∧ allocAlign 7 ≤ 7 + 15 ∧
      allocAlign 7 + 16 * 3 ≤ 7 + 16 * (3 + 2)) :=
  ⟨by norm_num, C7_alloc_alignment 7 3 (by norm_num)⟩

/-! ## C10: SamConfig::printReadName -/

/-- The output loop writes the longest whitespace-free prefix of the
first `n` characters. -/
theorem writeNameLoop_eq_takeWhile (l : List Char) (n : Nat) :
    writeNameLoop l n = (l.take n).takeWhile (fun c => ! csIsspace c) := by
  induction l generalizing n with
  | nil => cases n <;> simp [writeNameLoop]
  | cons c cs ih =>
      cases n with
      | zero => simp [writeNameLoop]
      | succ m =>
          rw [writeNameLoop, List.take_succ_cons, List.takeWhile_cons]
          by_cases h : csIsspace c <;> simp [h, ih]

theorem drop_last_two (l : List Char) (h : 2 ≤ l.length) :
    l.drop (l.length - 2) = [l.getD (l.length - 2) ' ', l.getD (l.length - 1) ' '] := by
  apply List.ext_getElem
  · simp; omega
  · intro i h1 h2
    simp [List.length_drop] at h1
    rw [List.getElem_drop]
    rcases (by omega : i = 0 ∨ i = 1) with rfl | rfl
    · simp [List.getD_eq_getElem l ' ' (by omega : l.length - 2 < l.length),
        List.getElem?_eq_getElem (by omega : l.length - 2 < l.length)]
    · simp only [show l.length - 2 + 1 = l.length - 1 from by omega]
      simp [List.getD_eq_getElem l ' ' (by omega : l.length - 1 < l.length),
        List.getElem?_eq_getElem (by omega : l.length - 1 < l.length)]

theorem takeWhile_longest {α : Type} (q : α → Bool) (p l : List α)
    (hp : p <+: l) (hall : ∀ c ∈ p, q c = true) :
    p.length ≤ (l.takeWhile q).length := by
  induction p generalizing l with
  | nil => simp
  | cons a as ih =>
      obtain ⟨rest, rfl⟩ := hp
      rw [List.cons_append, List.takeWhile_cons, hall a (by simp)]
      simpa using ih (as ++ rest) ⟨rest, rfl⟩ (fun c hc => hall c (by simp [hc]))

theorem printReadName_eq (t : Bool) (name : List Char) :
    printReadName t name =
      List.takeWhile (fun c => ! csIsspace c) (effectiveNameC10 t name) := by
  rw [printReadName, writeNameLoop_eq_takeWhile]
  congr 1
  rw [effectiveNameC10]
  by_cases hc : 2 ≤ name.length ∧ name.getD (name.length - 2) ' ' = '/' ∧
      (name.getD (name.length - 1) ' ' = '1' ∨
       name.getD (name.length - 1) ' ' = '2')
  · obtain ⟨h2, hs, h12⟩ := hc
    have hcond : 2 ≤ name.length ∧
        (name.drop (name.length - 2) = ['/', '1'] ∨
         name.drop (name.length - 2) = ['/', '2']) := by
      refine ⟨h2, ?_⟩
      rcases h12 with h1 | h1
      · left; rw [drop_last_two name h2, hs, h1]
      · right; rw [drop_last_two name h2, hs, h1]
    have hn2 : (if 2 ≤ name.length ∧ name.getD (name.length - 2) ' ' = '/' ∧
        (name.getD (name.length - 1) ' ' = '1' ∨
         name.getD (name.length - 1) ' ' = '2')
        then name.length - 2 else name.length) = name.length - 2 :=
      if_pos ⟨h2, hs, h12⟩
    rw [hn2, if_pos hcond]
    cases t with
    | false => simp
    | true =>
        simp only [List.take_take, if_true, true_and]
        rw [show (if 255 < name.length - 2 then 255 else name.length - 2)
            = min 255 (name.length - 2) from by split <;> omega]
  · have hcond : ¬(2 ≤ name.length ∧
        (name.drop (name.length - 2) = ['/', '1'] ∨
         name.drop (name.length - 2) = ['/', '2'])) := by
      intro ⟨h2, hd⟩
      apply hc
      refine ⟨h2, ?_⟩
      rw [drop_last_two name h2] at hd
      rcases hd with hd | hd <;> simp only [List.cons.injEq, and_true] at hd
      · exact ⟨hd.1, Or.inl hd.2⟩
      · exact ⟨hd.1, Or.inr hd.2⟩
    rw [if_neg hc, if_neg hcond]
    cases t with
    | false => simp
    | true =>
        simp only [if_true, true_and]
        rw [show (if 255 < name.length then 255 else name.length)
            = min 255 name.length from by split <;> omega]
        rw [List.take_eq_take]
        omega

/-- C10: printReadName writes exactly the longest whitespace-free prefix
of the effective name (the input with a trailing "/1" or "/2" removed
when its length is at least 2, then capped at 255 characters when
truncQname is enabled): the output is a whitespace-free prefix of the
effective name and no longer whitespace-free prefix exists. -/
theorem C10_printReadName_whitespace_free (t : Bool) (name : List Char) :
    printReadName t name <+: effectiveNameC10 t name ∧
    (∀ c ∈ printReadName t name, csIsspace c = false) ∧
    ∀ p, p <+: effectiveNameC10 t name → (∀ c ∈ p, csIsspace c = false) →
      p.length ≤ (printReadName t name).length := by
  rw [printReadName_eq]
  refine ⟨ List.takeWhile_prefix _, ?_, ?_⟩
  · intro c hc
    have := List.mem_takeWhile_imp hc
    simpa using this
  · intro p hp hall
    exact takeWhile_longest _ p _ hp (fun c hc => by simp [hall c hc])

/-- Witness for C10 at a concrete name containing a blank and carrying a
"/1" suffix. -/
theorem C10_printReadName_whitespace_free_witness :
    printReadName false exNameC10 = ['a', 'b'] ∧
    printReadName false exNameC10 <+: effectiveNameC10 false exNameC10 ∧
    (∀ c ∈ printReadName false exNameC10, csIsspace c = false) ∧
    (['a'] <+: effectiveNameC10 false exNameC10) ∧
    ['a'].length ≤ (printReadName false exNameC10).length := by
  have h := C10_printReadName_whitespace_free false exNameC10
  refine ⟨by decide, h.1, h.2.1, ⟨['b', ' ', 'c'], by decide⟩, ?_⟩
  exact h.2.2 ['a'] ⟨['b', ' ', 'c'], by decide⟩ (by decide)
